import Mathlib

/-!
# HID-over-UART keyboard bridge: report differencing and wire encoding

A shallow embedding of `src/hid_app.c` (`is_key_held`, `send_key_event`,
`send_modifier_event`, `detect_report_changes`, `process_kbd_report`) and the
properties of the report differ and of the 16-bit packet layout.

Conventions of the embedding.

* A `uint8_t` or `uint16_t` value is a `Nat`; every assignment to the
  `uint16_t packet` is followed by an explicit `% 65536`.
* The output stream is the list of bytes handed to `write(STDOUT_FILENO, ..)`,
  oldest first.  The return value of `write` is ignored by the program, and so
  it is by the model.
* The C program has no event type: an *event* is one call of
  `send_modifier_event` or `send_key_event`.  The model keeps, next to the
  bytes, the log of those calls, so that statements about "the emitted events"
  and statements about "the bytes written" are about two separately recorded
  things.
* A `for (uint8_t i = 0; i < 6; i++)` loop is a recursion over the list
  `slots = [0, 1, 2, 3, 4, 5]` of the indices it visits, in that order.
-/

namespace HidApp

/-! ## Data model -/

/-- Modelled from the spec: the boot keyboard report `hid_keyboard_report_t`,
declared by the USB stack header `tusb.h` and not by this repository.  It has a
modifier byte, a reserved byte and six keycode bytes (the initialiser
`{0, 0, {0}}` in `process_kbd_report` gives the same three members). -/
structure hid_keyboard_report_t where
  modifier : Nat
  reserved : Nat
  keycode : Fin 6 → Nat

/-- A report all of whose members fit their `uint8_t` type. -/
def hid_keyboard_report_t.is_bytes (r : hid_keyboard_report_t) : Prop :=
  r.modifier < 256 ∧ r.reserved < 256 ∧ ∀ i, r.keycode i < 256

/-- One call of a sender: `send_modifier_event (m)` is `ModifierChanged m`,
`send_key_event (true, k)` is `KeyPressed k` and `send_key_event (false, k)` is
`KeyReleased k`. -/
inductive Event where
  | ModifierChanged (new_mask : Nat)
  | KeyPressed (code : Nat)
  | KeyReleased (code : Nat)
  deriving DecidableEq

/-- What the program has done so far on its output: the calls of the two
senders (`events`) and the bytes handed to `write` (`out`), oldest first. -/
structure Stdout where
  events : List Event
  out : List Nat
  deriving DecidableEq

/-- Nothing sent yet. -/
def Stdout.empty : Stdout := ⟨[], []⟩

/-- The indices visited by `for (uint8_t i = 0; i < 6; i++)`, in order. -/
def slots : List (Fin 6) := [0, 1, 2, 3, 4, 5]

/-- A report given by its modifier byte and its six keycode slots. -/
def mkReport (modifier k0 k1 k2 k3 k4 k5 : Nat) : hid_keyboard_report_t :=
  { modifier := modifier, reserved := 0, keycode := ![k0, k1, k2, k3, k4, k5] }

/-! ## `is_key_held` -/

/-- The loop of `is_key_held` over the slots still to visit: `return true` at
the first slot holding `keycode`, `return false` after the last. -/
def is_key_held.loop (report : hid_keyboard_report_t) (keycode : Nat) : List (Fin 6) → Bool
  | [] => false
  | i :: rest => if report.keycode i = keycode then true else is_key_held.loop report keycode rest

/-- The function `is_key_held (report, keycode)`. -/
def is_key_held (report : hid_keyboard_report_t) (keycode : Nat) : Bool :=
  is_key_held.loop report keycode slots

/-! ## The senders -/

/-- The call `write (STDOUT_FILENO, send_buffer, 2)`: the bytes of the buffer go
to the end of the output stream. -/
def write (s : Stdout) (send_buffer : List Nat) : Stdout :=
  { s with out := s.out ++ send_buffer }

/-- The value of `packet` in `send_key_event` when the buffer is filled. -/
def key_event_packet (pressed : Bool) (key : Nat) : Nat :=
  let packet := 0
  let packet := (packet ||| (0b101 <<< 13)) % 65536
  let packet := (packet ||| ((if pressed then 1 else 0) <<< 12)) % 65536
  let packet := (packet ||| ((key &&& 0xFF) <<< 4)) % 65536
  let packet := (packet ||| (0b011 <<< 1)) % 65536
  let packet := (packet ||| (if pressed then 1 else 0)) % 65536
  packet

/-- The value of `packet` in `send_modifier_event` when the buffer is filled. -/
def modifier_event_packet (modifier_state : Nat) : Nat :=
  let packet := 0
  let packet := (packet ||| (0b110 <<< 13)) % 65536
  let packet := (packet ||| ((modifier_state &&& 0xFF) <<< 4)) % 65536
  let packet := (packet ||| (0b010 <<< 1)) % 65536
  packet

/-- The initialiser `{(packet >> 8) & 0xFF, packet & 0xFF}` of `send_buffer`. -/
def send_buffer (packet : Nat) : List Nat :=
  [(packet >>> 8) &&& 0xFF, packet &&& 0xFF]

/-- The function `send_key_event (pressed, key)`: the call is logged and the
two bytes of the packet are written. -/
def send_key_event (pressed : Bool) (key : Nat) (s : Stdout) : Stdout :=
  let s := { s with events := s.events ++ [if pressed then Event.KeyPressed key else Event.KeyReleased key] }
  write s (send_buffer (key_event_packet pressed key))

/-- The function `send_modifier_event (modifier_state)`: the call is logged and
the two bytes of the packet are written. -/
def send_modifier_event (modifier_state : Nat) (s : Stdout) : Stdout :=
  let s := { s with events := s.events ++ [Event.ModifierChanged modifier_state] }
  write s (send_buffer (modifier_event_packet modifier_state))

/-! ## `detect_report_changes` and `process_kbd_report` -/

/-- The first loop of `detect_report_changes` ("newly released keys") over the
slots still to visit. -/
def detect_report_changes.released (prev_report report : hid_keyboard_report_t) :
    List (Fin 6) → Stdout → Stdout
  | [], s => s
  | i :: rest, s =>
    if prev_report.keycode i ≠ 0 ∧ is_key_held report (prev_report.keycode i) = false then
      detect_report_changes.released prev_report report rest
        (send_key_event false (prev_report.keycode i) s)
    else
      detect_report_changes.released prev_report report rest s

/-- The second loop of `detect_report_changes` ("newly pressed keys") over the
slots still to visit. -/
def detect_report_changes.pressed (prev_report report : hid_keyboard_report_t) :
    List (Fin 6) → Stdout → Stdout
  | [], s => s
  | i :: rest, s =>
    if report.keycode i ≠ 0 ∧ is_key_held prev_report (report.keycode i) = false then
      detect_report_changes.pressed prev_report report rest
        (send_key_event true (report.keycode i) s)
    else
      detect_report_changes.pressed prev_report report rest s

/-- The function `detect_report_changes (prev_report, report)`. -/
def detect_report_changes (prev_report report : hid_keyboard_report_t) (s : Stdout) : Stdout :=
  let s := if prev_report.modifier ≠ report.modifier then send_modifier_event report.modifier s else s
  let s := detect_report_changes.released prev_report report slots s
  let s := detect_report_changes.pressed prev_report report slots s
  s

/-- The state of the keyboard path: the `static prev_report` of
`process_kbd_report` and the output. -/
structure KbdState where
  prev_report : hid_keyboard_report_t
  stdout : Stdout

/-- The state at start-up: `prev_report = {0, 0, {0}}` and nothing sent. -/
def KbdState.init : KbdState :=
  { prev_report := { modifier := 0, reserved := 0, keycode := fun _ => 0 }, stdout := Stdout.empty }

/-- The function `process_kbd_report (report)`. -/
def process_kbd_report (report : hid_keyboard_report_t) (st : KbdState) : KbdState :=
  let stdout := detect_report_changes st.prev_report report st.stdout
  { prev_report := report, stdout := stdout }

/-- The events of one differencing, on an output that was empty. -/
def diff_events (prev_report report : hid_keyboard_report_t) : List Event :=
  (detect_report_changes prev_report report Stdout.empty).events

/-- The bytes written by one differencing, on an output that was empty. -/
def diff_bytes (prev_report report : hid_keyboard_report_t) : List Nat :=
  (detect_report_changes prev_report report Stdout.empty).out

/-! ## Specification-side definitions -/

/-- The 16-bit packet of an event, as its sender builds it. -/
def Event.packet : Event → Nat
  | Event.ModifierChanged m => modifier_event_packet m
  | Event.KeyPressed k => key_event_packet true k
  | Event.KeyReleased k => key_event_packet false k

/-- The big-endian encoding of an event on the wire: the high byte of its
packet, then the low byte. -/
def Event.bytes (e : Event) : List Nat :=
  [e.packet >>> 8, e.packet &&& 0xFF]

/-- The codes of the non-empty slots of `a`, in slot order, that are in no slot
of `b`, as the two loops of `detect_report_changes` find them. -/
def fresh_codes (a b : hid_keyboard_report_t) : List Nat :=
  (slots.filter (fun i => decide (a.keycode i ≠ 0 ∧ is_key_held b (a.keycode i) = false))).map
    a.keycode

/-- The event sequence that the differ is specified to emit: the modifier event
when the modifier bytes differ, then a release for each slot `i = 0..5` of
`prev` holding a non-zero code that is in no slot of `cur`, then a press for
each slot `i = 0..5` of `cur` holding a non-zero code that is in no slot of
`prev`. -/
def spec_events (prev cur : hid_keyboard_report_t) : List Event :=
  (if prev.modifier ≠ cur.modifier then [Event.ModifierChanged cur.modifier] else [])
    ++ ((List.finRange 6).filter
          (fun i => decide (prev.keycode i ≠ 0 ∧ ∀ j, cur.keycode j ≠ prev.keycode i))).map
        (fun i => Event.KeyReleased (prev.keycode i))
    ++ ((List.finRange 6).filter
          (fun i => decide (cur.keycode i ≠ 0 ∧ ∀ j, prev.keycode j ≠ cur.keycode i))).map
        (fun i => Event.KeyPressed (cur.keycode i))

/-- The bytes of a sequence of events: the encodings of the events, one after
the other. -/
def encode_events : List Event → List Nat
  | [] => []
  | e :: es => e.bytes ++ encode_events es

/-- The output after the events `es` have been sent on `s`, each by its
sender. -/
def Stdout.emit (s : Stdout) (es : List Event) : Stdout :=
  { events := s.events ++ es, out := s.out ++ encode_events es }

/-- The events of `detect_report_changes` read off its three parts: the
modifier test, the release loop and the press loop. -/
def code_events (prev cur : hid_keyboard_report_t) : List Event :=
  (if prev.modifier ≠ cur.modifier then [Event.ModifierChanged cur.modifier] else [])
    ++ (fresh_codes prev cur).map Event.KeyReleased
    ++ (fresh_codes cur prev).map Event.KeyPressed

/-- The field of a packet from bit `hi` down to bit `lo`, as a number. -/
def bit_field (packet hi lo : Nat) : Nat :=
  (packet >>> lo) % 2 ^ (hi + 1 - lo)

/-- No non-zero code occupies more than one slot of the report. -/
def no_duplicate_codes (r : hid_keyboard_report_t) : Prop :=
  ∀ i j, r.keycode i ≠ 0 → r.keycode i = r.keycode j → i = j

instance (r : hid_keyboard_report_t) : Decidable (no_duplicate_codes r) := by
  unfold no_duplicate_codes
  infer_instance

/-- No non-zero code of `a` that is in no slot of `b` occupies more than one
slot of `a`: the scan of `a` against `b` reports no code twice. -/
def no_repeated_fresh_code (a b : hid_keyboard_report_t) : Prop :=
  ∀ i j, a.keycode i ≠ 0 → (∀ k, b.keycode k ≠ a.keycode i) → a.keycode i = a.keycode j → i = j

instance (a b : hid_keyboard_report_t) : Decidable (no_repeated_fresh_code a b) := by
  unfold no_repeated_fresh_code
  infer_instance

instance (r : hid_keyboard_report_t) : Decidable r.is_bytes := by
  unfold hid_keyboard_report_t.is_bytes
  infer_instance

/-- The place of an event kind in the emission order: modifier, release,
press. -/
def Event.rank : Event → Nat
  | Event.ModifierChanged _ => 0
  | Event.KeyReleased _ => 1
  | Event.KeyPressed _ => 2

/-! ## The differ over an arbitrary behaviour of `write` -/

/-- The function `send_key_event (pressed, key)` when the library call
`write (STDOUT_FILENO, send_buffer, 2)` turns the stream `out` into
`wr out send_buffer`, whatever `wr` is (all bytes taken, some, or none): the
program does not look at the value `write` returns. -/
def send_key_event_on (wr : List Nat → List Nat → List Nat) (pressed : Bool) (key : Nat)
    (s : Stdout) : Stdout :=
  { events := s.events ++ [if pressed then Event.KeyPressed key else Event.KeyReleased key],
    out := wr s.out (send_buffer (key_event_packet pressed key)) }

/-- The function `send_modifier_event (modifier_state)` over the behaviour `wr`
of `write`. -/
def send_modifier_event_on (wr : List Nat → List Nat → List Nat) (modifier_state : Nat)
    (s : Stdout) : Stdout :=
  { events := s.events ++ [Event.ModifierChanged modifier_state],
    out := wr s.out (send_buffer (modifier_event_packet modifier_state)) }

/-- The first loop of `detect_report_changes` over the behaviour `wr` of
`write`. -/
def detect_report_changes_on.released (wr : List Nat → List Nat → List Nat)
    (prev_report report : hid_keyboard_report_t) : List (Fin 6) → Stdout → Stdout
  | [], s => s
  | i :: rest, s =>
    if prev_report.keycode i ≠ 0 ∧ is_key_held report (prev_report.keycode i) = false then
      detect_report_changes_on.released wr prev_report report rest
        (send_key_event_on wr false (prev_report.keycode i) s)
    else
      detect_report_changes_on.released wr prev_report report rest s

/-- The second loop of `detect_report_changes` over the behaviour `wr` of
`write`. -/
def detect_report_changes_on.pressed (wr : List Nat → List Nat → List Nat)
    (prev_report report : hid_keyboard_report_t) : List (Fin 6) → Stdout → Stdout
  | [], s => s
  | i :: rest, s =>
    if report.keycode i ≠ 0 ∧ is_key_held prev_report (report.keycode i) = false then
      detect_report_changes_on.pressed wr prev_report report rest
        (send_key_event_on wr true (report.keycode i) s)
    else
      detect_report_changes_on.pressed wr prev_report report rest s

/-- The function `detect_report_changes (prev_report, report)` over the
behaviour `wr` of `write`. -/
def detect_report_changes_on (wr : List Nat → List Nat → List Nat)
    (prev_report report : hid_keyboard_report_t) (s : Stdout) : Stdout :=
  let s := if prev_report.modifier ≠ report.modifier then
    send_modifier_event_on wr report.modifier s else s
  let s := detect_report_changes_on.released wr prev_report report slots s
  let s := detect_report_changes_on.pressed wr prev_report report slots s
  s

/-- The function `process_kbd_report (report)` over the behaviour `wr` of
`write`. -/
def process_kbd_report_on (wr : List Nat → List Nat → List Nat)
    (report : hid_keyboard_report_t) (st : KbdState) : KbdState :=
  let stdout := detect_report_changes_on wr st.prev_report report st.stdout
  { prev_report := report, stdout := stdout }

/-- The calls `process_kbd_report (R1)`, ..., `process_kbd_report (Rn)`, in this
order, from the state `st`. -/
def process_reports : List hid_keyboard_report_t → KbdState → KbdState
  | [], st => st
  | r :: rest, st => process_reports rest (process_kbd_report r st)

/-! ## The receiver side, from the specification -/

/-- The set of the non-zero codes in the six slots of a report. -/
def held_codes (r : hid_keyboard_report_t) : Finset Nat :=
  (Finset.univ.image r.keycode).erase 0

/-- What a receiver of the events knows: the modifier mask and the set of the
keys held. -/
structure Receiver where
  mask : Nat
  held : Finset Nat
  deriving DecidableEq

/-- The receiver before any event: mask 0 and no key held. -/
def Receiver.init : Receiver := { mask := 0, held := ∅ }

/-- One event applied: `ModifierChanged m` sets the mask to `m`,
`KeyReleased c` removes `c` from the held set, `KeyPressed c` adds it. -/
def Receiver.step (rx : Receiver) : Event → Receiver
  | Event.ModifierChanged m => { rx with mask := m }
  | Event.KeyReleased c => { rx with held := rx.held.erase c }
  | Event.KeyPressed c => { rx with held := insert c rx.held }

/-- The events applied in order. -/
def Receiver.run (rx : Receiver) (es : List Event) : Receiver :=
  es.foldl Receiver.step rx

/-- The receiver state that describes a report: its modifier byte and its
non-zero codes. -/
def Receiver.of_report (r : hid_keyboard_report_t) : Receiver :=
  { mask := r.modifier, held := held_codes r }

/-- The 8-bit payload of an event fits a byte. -/
def Event.is_byte : Event → Prop
  | Event.ModifierChanged m => m < 256
  | Event.KeyPressed k => k < 256
  | Event.KeyReleased k => k < 256

/-- The event is a `ModifierChanged`. -/
def Event.is_modifier : Event → Bool
  | Event.ModifierChanged _ => true
  | _ => false

/-- The event is a `KeyReleased`. -/
def Event.is_released : Event → Bool
  | Event.KeyReleased _ => true
  | _ => false

/-- The event is a `KeyPressed`. -/
def Event.is_pressed : Event → Bool
  | Event.KeyPressed _ => true
  | _ => false

/-! ## Lemmas on the embedding -/

theorem mem_slots (i : Fin 6) : i ∈ slots := by
  fin_cases i <;> simp [slots]

theorem slots_nodup : slots.Nodup := by decide

theorem slots_eq_finRange : slots = List.finRange 6 := by
  simp [slots, List.finRange_succ]
  decide

theorem is_key_held_loop_iff (report : hid_keyboard_report_t) (keycode : Nat) (l : List (Fin 6)) :
    is_key_held.loop report keycode l = true ↔ ∃ i ∈ l, report.keycode i = keycode := by
  induction l with
  | nil => simp [is_key_held.loop]
  | cons i rest ih =>
    by_cases h : report.keycode i = keycode
    · simp [is_key_held.loop, h]
    · simp [is_key_held.loop, h, ih]

theorem is_key_held_iff (report : hid_keyboard_report_t) (keycode : Nat) :
    is_key_held report keycode = true ↔ ∃ i, report.keycode i = keycode := by
  unfold is_key_held
  rw [is_key_held_loop_iff]
  constructor
  · rintro ⟨i, _, h⟩
    exact ⟨i, h⟩
  · rintro ⟨i, h⟩
    exact ⟨i, mem_slots i, h⟩

theorem is_key_held_eq_false_iff (report : hid_keyboard_report_t) (keycode : Nat) :
    is_key_held report keycode = false ↔ ∀ j, report.keycode j ≠ keycode := by
  rw [← Bool.not_eq_true, is_key_held_iff]
  simp

theorem key_event_packet_lt (pressed : Bool) (key : Nat) : key_event_packet pressed key < 65536 := by
  unfold key_event_packet
  exact Nat.mod_lt _ (by decide)

theorem modifier_event_packet_lt (m : Nat) : modifier_event_packet m < 65536 := by
  unfold modifier_event_packet
  exact Nat.mod_lt _ (by decide)

theorem send_buffer_of_lt (packet : Nat) (h : packet < 65536) :
    send_buffer packet = [packet >>> 8, packet &&& 0xFF] := by
  have h1 : (packet >>> 8) &&& 0xFF = (packet >>> 8) % 256 :=
    Nat.and_pow_two_sub_one_eq_mod (packet >>> 8) 8
  have h2 : packet >>> 8 = packet / 256 := Nat.shiftRight_eq_div_pow packet 8
  have h3 : packet >>> 8 < 256 := by omega
  rw [send_buffer, h1, Nat.mod_eq_of_lt h3]

theorem Event.packet_lt (e : Event) : e.packet < 65536 := by
  cases e
  · exact modifier_event_packet_lt _
  · exact key_event_packet_lt _ _
  · exact key_event_packet_lt _ _

theorem send_key_event_eq (pressed : Bool) (key : Nat) (s : Stdout) :
    send_key_event pressed key s =
      { events := s.events ++ [if pressed then Event.KeyPressed key else Event.KeyReleased key],
        out := s.out ++ (if pressed then Event.KeyPressed key else Event.KeyReleased key).bytes } := by
  cases pressed <;>
    simp [send_key_event, write, Event.bytes, Event.packet,
      send_buffer_of_lt _ (key_event_packet_lt _ _)]

theorem send_modifier_event_eq (m : Nat) (s : Stdout) :
    send_modifier_event m s =
      { events := s.events ++ [Event.ModifierChanged m],
        out := s.out ++ (Event.ModifierChanged m).bytes } := by
  simp [send_modifier_event, write, Event.bytes, Event.packet,
    send_buffer_of_lt _ (modifier_event_packet_lt _)]

theorem encode_events_append (a b : List Event) :
    encode_events (a ++ b) = encode_events a ++ encode_events b := by
  induction a with
  | nil => rfl
  | cons e es ih => simp [encode_events, ih]

theorem encode_events_length (l : List Event) : (encode_events l).length = 2 * l.length := by
  induction l with
  | nil => rfl
  | cons e es ih =>
    simp only [encode_events, List.length_append, List.length_cons, ih, Event.bytes,
      List.length_nil]
    omega

theorem Stdout.emit_nil (s : Stdout) : s.emit [] = s := by
  simp [Stdout.emit, encode_events]

theorem Stdout.emit_emit (s : Stdout) (a b : List Event) :
    (s.emit a).emit b = s.emit (a ++ b) := by
  simp [Stdout.emit, encode_events_append]

theorem send_key_event_emit (pressed : Bool) (key : Nat) (s : Stdout) :
    send_key_event pressed key s =
      s.emit [if pressed then Event.KeyPressed key else Event.KeyReleased key] := by
  rw [send_key_event_eq]
  simp [Stdout.emit, encode_events]

theorem send_modifier_event_emit (m : Nat) (s : Stdout) :
    send_modifier_event m s = s.emit [Event.ModifierChanged m] := by
  rw [send_modifier_event_eq]
  simp [Stdout.emit, encode_events]

theorem released_emit (prev cur : hid_keyboard_report_t) (l : List (Fin 6)) (s : Stdout) :
    detect_report_changes.released prev cur l s =
      s.emit (((l.filter (fun i => decide (prev.keycode i ≠ 0 ∧
        is_key_held cur (prev.keycode i) = false))).map prev.keycode).map Event.KeyReleased) := by
  induction l generalizing s with
  | nil => simp [detect_report_changes.released, Stdout.emit_nil]
  | cons i rest ih =>
    by_cases h : prev.keycode i ≠ 0 ∧ is_key_held cur (prev.keycode i) = false
    · rw [detect_report_changes.released, if_pos h, ih, send_key_event_emit, Stdout.emit_emit]
      simp [List.filter_cons, h]
    · rw [detect_report_changes.released, if_neg h, ih]
      simp [List.filter_cons, h]

theorem pressed_emit (prev cur : hid_keyboard_report_t) (l : List (Fin 6)) (s : Stdout) :
    detect_report_changes.pressed prev cur l s =
      s.emit (((l.filter (fun i => decide (cur.keycode i ≠ 0 ∧
        is_key_held prev (cur.keycode i) = false))).map cur.keycode).map Event.KeyPressed) := by
  induction l generalizing s with
  | nil => simp [detect_report_changes.pressed, Stdout.emit_nil]
  | cons i rest ih =>
    by_cases h : cur.keycode i ≠ 0 ∧ is_key_held prev (cur.keycode i) = false
    · rw [detect_report_changes.pressed, if_pos h, ih, send_key_event_emit, Stdout.emit_emit]
      simp [List.filter_cons, h]
    · rw [detect_report_changes.pressed, if_neg h, ih]
      simp [List.filter_cons, h]

theorem detect_report_changes_emit (prev cur : hid_keyboard_report_t) (s : Stdout) :
    detect_report_changes prev cur s = s.emit (code_events prev cur) := by
  unfold detect_report_changes code_events
  simp only [released_emit, pressed_emit]
  by_cases h : prev.modifier ≠ cur.modifier
  · rw [if_pos h, if_pos h, send_modifier_event_emit, Stdout.emit_emit, Stdout.emit_emit]
    rfl
  · rw [if_neg h, if_neg h, Stdout.emit_emit]
    simp [fresh_codes]

theorem diff_events_eq (prev cur : hid_keyboard_report_t) :
    diff_events prev cur = code_events prev cur := by
  simp [diff_events, detect_report_changes_emit, Stdout.emit, Stdout.empty]

theorem diff_bytes_eq (prev cur : hid_keyboard_report_t) :
    diff_bytes prev cur = encode_events (code_events prev cur) := by
  simp [diff_bytes, detect_report_changes_emit, Stdout.emit, Stdout.empty]

theorem code_events_eq_spec (prev cur : hid_keyboard_report_t) :
    code_events prev cur = spec_events prev cur := by
  unfold code_events spec_events fresh_codes
  simp only [is_key_held_eq_false_iff, slots_eq_finRange, List.map_map]
  rfl

theorem fresh_codes_self (r : hid_keyboard_report_t) : fresh_codes r r = [] := by
  unfold fresh_codes
  rw [List.map_eq_nil_iff, List.filter_eq_nil_iff]
  intro i _
  have h : is_key_held r (r.keycode i) = true := (is_key_held_iff r _).2 ⟨i, rfl⟩
  simp [h]

/-! ## The differ against its specification -/

/-- C1: the events emitted by `detect_report_changes (prev, cur)` are the
modifier event when the modifier bytes differ, then a release for each slot
`i = 0..5` of `prev`, in increasing order, whose code is non-zero and in no slot
of `cur`, then a press for each slot `i = 0..5` of `cur`, in increasing order,
whose code is non-zero and in no slot of `prev`; they are added after the
events already sent. -/
theorem detect_report_changes_events_spec (prev cur : hid_keyboard_report_t) :
    diff_events prev cur = spec_events prev cur ∧
      ∀ s : Stdout, (detect_report_changes prev cur s).events = s.events ++ spec_events prev cur := by
  refine ⟨?_, fun s => ?_⟩
  · rw [diff_events_eq, code_events_eq_spec]
  · rw [detect_report_changes_emit, code_events_eq_spec]
    rfl

/-! ## The packet layouts -/

set_option maxRecDepth 100000 in
/-- C2: the packet of `send_key_event (pressed, k)`, for an 8-bit `k`, is a
16-bit value whose bits 15-13 are `101`, whose bit 12 is 1 exactly when
`pressed`, whose bits 11-4 are `k`, whose bits 3-1 are `011` and whose bit 0
equals bit 12. -/
theorem key_event_packet_decode (pressed : Bool) (k : Nat) (hk : k < 256) :
    key_event_packet pressed k < 65536 ∧
      bit_field (key_event_packet pressed k) 15 13 = 0b101 ∧
      (bit_field (key_event_packet pressed k) 12 12 = 1 ↔ pressed = true) ∧
      bit_field (key_event_packet pressed k) 12 12 = (if pressed then 1 else 0) ∧
      bit_field (key_event_packet pressed k) 11 4 = k ∧
      bit_field (key_event_packet pressed k) 3 1 = 0b011 ∧
      bit_field (key_event_packet pressed k) 0 0 = bit_field (key_event_packet pressed k) 12 12 := by
  have h : ∀ k < 256, ∀ pressed : Bool,
      key_event_packet pressed k < 65536 ∧
      bit_field (key_event_packet pressed k) 15 13 = 0b101 ∧
      (bit_field (key_event_packet pressed k) 12 12 = 1 ↔ pressed = true) ∧
      bit_field (key_event_packet pressed k) 12 12 = (if pressed then 1 else 0) ∧
      bit_field (key_event_packet pressed k) 11 4 = k ∧
      bit_field (key_event_packet pressed k) 3 1 = 0b011 ∧
      bit_field (key_event_packet pressed k) 0 0 = bit_field (key_event_packet pressed k) 12 12 := by
    decide
  exact h k hk pressed

/-- C2 at the key code `0x04`: the pressed packet has press bit 1 and
verification bit 1, the released packet has press bit 0 and verification
bit 0. -/
theorem key_event_packet_decode_witness :
    (bit_field (key_event_packet true 4) 15 13 = 0b101 ∧
      bit_field (key_event_packet true 4) 12 12 = 1 ∧
      bit_field (key_event_packet true 4) 11 4 = 4 ∧
      bit_field (key_event_packet true 4) 3 1 = 0b011 ∧
      bit_field (key_event_packet true 4) 0 0 = 1) ∧
    (bit_field (key_event_packet false 4) 12 12 = 0 ∧
      bit_field (key_event_packet false 4) 0 0 = 0) := by
  have ht := key_event_packet_decode true 4 (by decide)
  have hf := key_event_packet_decode false 4 (by decide)
  obtain ⟨_, t1, _, t2, t3, t4, t5⟩ := ht
  obtain ⟨_, _, _, f2, _, _, f5⟩ := hf
  refine ⟨⟨t1, t2, t3, t4, ?_⟩, f2, ?_⟩
  · rw [t5]
    exact t2
  · rw [f5]
    exact f2

set_option maxRecDepth 100000 in
/-- C3: the packet of `send_modifier_event (m)`, for an 8-bit `m`, has bits
15-13 equal to `110`, bit 12 equal to 0, bits 11-4 equal to `m`, bits 3-1 equal
to `010` and bit 0 equal to 0: its value is `0xC004 + 16 * m`. -/
theorem modifier_event_packet_layout (m : Nat) (hm : m < 256) :
    modifier_event_packet m = 0xC004 + 16 * m ∧
      modifier_event_packet m < 65536 ∧
      bit_field (modifier_event_packet m) 15 13 = 0b110 ∧
      bit_field (modifier_event_packet m) 12 12 = 0 ∧
      bit_field (modifier_event_packet m) 11 4 = m ∧
      bit_field (modifier_event_packet m) 3 1 = 0b010 ∧
      bit_field (modifier_event_packet m) 0 0 = 0 := by
  have h : ∀ m < 256,
      modifier_event_packet m = 0xC004 + 16 * m ∧
      modifier_event_packet m < 65536 ∧
      bit_field (modifier_event_packet m) 15 13 = 0b110 ∧
      bit_field (modifier_event_packet m) 12 12 = 0 ∧
      bit_field (modifier_event_packet m) 11 4 = m ∧
      bit_field (modifier_event_packet m) 3 1 = 0b010 ∧
      bit_field (modifier_event_packet m) 0 0 = 0 := by
    decide
  exact h m hm

/-- C3 at the modifier mask `0x02` (left shift): the packet is `0xC024`. -/
theorem modifier_event_packet_layout_witness :
    (2 < 256) ∧ modifier_event_packet 2 = 0xC024 :=
  ⟨by decide, (modifier_event_packet_layout 2 (by decide)).1⟩

/-- C4: each call of `send_key_event` or `send_modifier_event` adds exactly two
bytes to the output, the high byte `packet >> 8` of its packet and then the low
byte `packet & 0xFF`; so the bytes written by `detect_report_changes` are the
big-endian encodings of its events, in event order, and there are twice as many
bytes as events. -/
theorem senders_write_two_bytes_big_endian (prev cur : hid_keyboard_report_t) (s : Stdout)
    (pressed : Bool) (key modifier_state : Nat) :
    (send_key_event pressed key s).out =
        s.out ++ [key_event_packet pressed key >>> 8, key_event_packet pressed key &&& 0xFF] ∧
      (send_modifier_event modifier_state s).out =
        s.out ++ [modifier_event_packet modifier_state >>> 8,
          modifier_event_packet modifier_state &&& 0xFF] ∧
      key_event_packet pressed key >>> 8 < 256 ∧ key_event_packet pressed key &&& 0xFF < 256 ∧
      modifier_event_packet modifier_state >>> 8 < 256 ∧
      modifier_event_packet modifier_state &&& 0xFF < 256 ∧
      (detect_report_changes prev cur s).events = s.events ++ diff_events prev cur ∧
      (detect_report_changes prev cur s).out = s.out ++ encode_events (diff_events prev cur) ∧
      diff_bytes prev cur = encode_events (diff_events prev cur) ∧
      (diff_bytes prev cur).length = 2 * (diff_events prev cur).length := by
  have hk := key_event_packet_lt pressed key
  have hm := modifier_event_packet_lt modifier_state
  have low : ∀ p : Nat, p &&& 0xFF < 256 := fun p => by
    have h : p &&& 0xFF = p % 256 := Nat.and_pow_two_sub_one_eq_mod p 8
    omega
  have high : ∀ p : Nat, p < 65536 → p >>> 8 < 256 := fun p hp => by
    have h : p >>> 8 = p / 256 := Nat.shiftRight_eq_div_pow p 8
    omega
  refine ⟨?_, ?_, high _ hk, low _, high _ hm, low _, ?_, ?_, ?_, ?_⟩
  · rw [send_key_event_eq]
    cases pressed <;> rfl
  · rw [send_modifier_event_eq]
    rfl
  · rw [detect_report_changes_emit, diff_events_eq]
    rfl
  · rw [detect_report_changes_emit, diff_events_eq]
    rfl
  · rw [diff_bytes_eq, diff_events_eq]
  · rw [diff_bytes_eq, diff_events_eq, encode_events_length]

/-- C5: from the initial retained report, the report with modifier 0 and
keycodes `[0x04, 0, 0, 0, 0, 0]` gives exactly the event `KeyPressed 0x04`, the
packet `0xB047` and the two bytes `0xB0`, `0x47`. -/
theorem single_keypress_scenario :
    diff_events (mkReport 0 0 0 0 0 0 0) (mkReport 0 4 0 0 0 0 0) = [Event.KeyPressed 4] ∧
      (Event.KeyPressed 4).packet = 0xB047 ∧
      key_event_packet true 4 = 0xB047 ∧
      diff_bytes (mkReport 0 0 0 0 0 0 0) (mkReport 0 4 0 0 0 0 0) = [0xB0, 0x47] ∧
      (process_kbd_report (mkReport 0 4 0 0 0 0 0) KbdState.init).stdout =
        { events := [Event.KeyPressed 4], out := [0xB0, 0x47] } := by
  decide

/-- C6: differencing a report against itself emits no event and writes no
byte, whatever the modifier byte and the six keycodes (duplicates and zeros
included): the output is left as it was. -/
theorem no_change_idempotence (r : hid_keyboard_report_t) :
    diff_events r r = [] ∧ diff_bytes r r = [] ∧
      ∀ s : Stdout, detect_report_changes r r s = s := by
  have h : code_events r r = [] := by
    simp [code_events, fresh_codes_self]
  refine ⟨?_, ?_, fun s => ?_⟩
  · rw [diff_events_eq, h]
  · rw [diff_bytes_eq, h]
    rfl
  · rw [detect_report_changes_emit, h, Stdout.emit_nil]

/-! ## Shape of the event sequence -/

theorem mem_fresh_codes {a b : hid_keyboard_report_t} {c : Nat} (h : c ∈ fresh_codes a b) :
    c ≠ 0 ∧ (∃ i, a.keycode i = c) ∧ ∀ j, b.keycode j ≠ c := by
  unfold fresh_codes at h
  rw [List.mem_map] at h
  obtain ⟨i, hi, rfl⟩ := h
  rw [List.mem_filter, decide_eq_true_eq, is_key_held_eq_false_iff] at hi
  exact ⟨hi.2.1, ⟨i, rfl⟩, hi.2.2⟩

theorem fresh_codes_nodup {a : hid_keyboard_report_t} (b : hid_keyboard_report_t)
    (ha : no_duplicate_codes a) : (fresh_codes a b).Nodup := by
  unfold fresh_codes
  refine List.Nodup.map_on ?_ (slots_nodup.filter _)
  intro i hi j _ hij
  rw [List.mem_filter, decide_eq_true_eq] at hi
  exact ha i j hi.2.1 hij

theorem code_events_rank_sorted (prev cur : hid_keyboard_report_t) :
    (code_events prev cur).Pairwise (fun a b => a.rank ≤ b.rank) := by
  unfold code_events
  rw [List.pairwise_append, List.pairwise_append]
  refine ⟨⟨?_, ?_, ?_⟩, ?_, ?_⟩
  · by_cases h : prev.modifier ≠ cur.modifier
    · rw [if_pos h]
      exact List.pairwise_singleton _ _
    · rw [if_neg h]
      exact List.Pairwise.nil
  · refine List.pairwise_of_forall_mem_list ?_
    intro x hx y hy
    rw [List.mem_map] at hx hy
    obtain ⟨_, _, rfl⟩ := hx
    obtain ⟨_, _, rfl⟩ := hy
    exact Nat.le_refl _
  · intro x hx y hy
    rw [List.mem_map] at hy
    obtain ⟨_, _, rfl⟩ := hy
    by_cases h : prev.modifier ≠ cur.modifier
    · rw [if_pos h, List.mem_singleton] at hx
      subst hx
      simp [Event.rank]
    · rw [if_neg h] at hx
      cases hx
  · refine List.pairwise_of_forall_mem_list ?_
    intro x hx y hy
    rw [List.mem_map] at hx hy
    obtain ⟨_, _, rfl⟩ := hx
    obtain ⟨_, _, rfl⟩ := hy
    exact Nat.le_refl _
  · intro x _ y hy
    rw [List.mem_map] at hy
    obtain ⟨_, _, rfl⟩ := hy
    cases x <;> simp [Event.rank]

theorem rank_sorted_index {l : List Event} (h : l.Pairwise (fun a b => a.rank ≤ b.rank))
    {i j : Nat} {x y : Event} (hx : l[i]? = some x) (hy : l[j]? = some y)
    (hr : x.rank < y.rank) : i < j := by
  rw [List.getElem?_eq_some] at hx hy
  obtain ⟨hi, hxi⟩ := hx
  obtain ⟨hj, hyj⟩ := hy
  rw [List.pairwise_iff_getElem] at h
  by_contra hij
  rcases Nat.lt_or_ge j i with hlt | hge
  · have := h j i hj hi hlt
    rw [hxi, hyj] at this
    omega
  · have hEq : i = j := by omega
    subst hEq
    rw [hxi] at hyj
    subst hyj
    omega

theorem count_KeyReleased (prev cur : hid_keyboard_report_t) (c : Nat) :
    (code_events prev cur).count (Event.KeyReleased c) = (fresh_codes prev cur).count c := by
  have inj : Function.Injective Event.KeyReleased := fun _ _ h => by
    injection h
  have h1 : (if prev.modifier ≠ cur.modifier then [Event.ModifierChanged cur.modifier]
      else []).count (Event.KeyReleased c) = 0 := by
    split <;> simp
  have h2 : ((fresh_codes cur prev).map Event.KeyPressed).count (Event.KeyReleased c) = 0 := by
    rw [List.count_eq_zero]
    simp
  unfold code_events
  rw [List.count_append, List.count_append, h1, h2, List.count_map_of_injective _ _ inj]
  omega

theorem count_KeyPressed (prev cur : hid_keyboard_report_t) (c : Nat) :
    (code_events prev cur).count (Event.KeyPressed c) = (fresh_codes cur prev).count c := by
  have inj : Function.Injective Event.KeyPressed := fun _ _ h => by
    injection h
  have h1 : (if prev.modifier ≠ cur.modifier then [Event.ModifierChanged cur.modifier]
      else []).count (Event.KeyPressed c) = 0 := by
    split <;> simp
  have h2 : ((fresh_codes prev cur).map Event.KeyReleased).count (Event.KeyPressed c) = 0 := by
    rw [List.count_eq_zero]
    simp
  unfold code_events
  rw [List.count_append, List.count_append, h1, h2, List.count_map_of_injective _ _ inj]
  omega

/-! ## Properties of the event sequence -/

/-- C7: when the modifier bytes differ, the first event of
`detect_report_changes` is `ModifierChanged` with the whole new byte
`cur.modifier`, whatever the keycodes, and no other event of the sequence is a
`ModifierChanged`; the reports `{0x02, [0x04,0,0,0,0,0]}` then
`{0x00, [0,0,0,0,0,0]}` give exactly `[ModifierChanged 0x00, KeyReleased 0x04]`. -/
theorem modifier_absoluteness :
    (∀ prev cur : hid_keyboard_report_t, prev.modifier ≠ cur.modifier →
      (diff_events prev cur).head? = some (Event.ModifierChanged cur.modifier) ∧
      (∀ m, Event.ModifierChanged m ∉ (diff_events prev cur).tail) ∧
      ∀ m, (diff_events prev cur).count (Event.ModifierChanged m) =
        if m = cur.modifier then 1 else 0) ∧
    diff_events (mkReport 0x02 0x04 0 0 0 0 0) (mkReport 0x00 0 0 0 0 0 0) =
      [Event.ModifierChanged 0x00, Event.KeyReleased 0x04] := by
  refine ⟨fun prev cur h => ?_, by decide⟩
  have hs : diff_events prev cur = Event.ModifierChanged cur.modifier ::
      ((fresh_codes prev cur).map Event.KeyReleased ++
        (fresh_codes cur prev).map Event.KeyPressed) := by
    rw [diff_events_eq, code_events, if_pos h]
    simp
  have ht : ∀ m, Event.ModifierChanged m ∉
      (fresh_codes prev cur).map Event.KeyReleased ++
        (fresh_codes cur prev).map Event.KeyPressed := by
    intro m
    simp
  rw [hs]
  refine ⟨rfl, ht, fun m => ?_⟩
  rw [List.count_cons, List.count_eq_zero.2 (ht m)]
  by_cases hm : m = cur.modifier
  · subst hm
    simp
  · have hne : ¬ cur.modifier = m := fun h => hm h.symm
    simp [hm, hne]

/-- C7 at the reports `{0x02, [0x04,0,0,0,0,0]}` and `{0x00, [0,0,0,0,0,0]}`:
the modifier bytes differ and the first event carries the new byte `0x00`, not
the difference `0x02`. -/
theorem modifier_absoluteness_witness :
    (mkReport 0x02 0x04 0 0 0 0 0).modifier ≠ (mkReport 0x00 0 0 0 0 0 0).modifier ∧
      (diff_events (mkReport 0x02 0x04 0 0 0 0 0) (mkReport 0x00 0 0 0 0 0 0)).head? =
        some (Event.ModifierChanged 0x00) :=
  ⟨by decide, (modifier_absoluteness.1 (mkReport 0x02 0x04 0 0 0 0 0) (mkReport 0x00 0 0 0 0 0 0)
    (by decide)).1⟩

/-- C8: in the events of `detect_report_changes`, every `KeyReleased` is at an
earlier position than every `KeyPressed`, and a `ModifierChanged` is at an
earlier position than every key event. -/
theorem ordering_invariant (prev cur : hid_keyboard_report_t) (i j : Nat) :
    (∀ c d, (diff_events prev cur)[i]? = some (Event.KeyReleased c) →
      (diff_events prev cur)[j]? = some (Event.KeyPressed d) → i < j) ∧
    (∀ m c, (diff_events prev cur)[i]? = some (Event.ModifierChanged m) →
      (diff_events prev cur)[j]? = some (Event.KeyReleased c) → i < j) ∧
    (∀ m d, (diff_events prev cur)[i]? = some (Event.ModifierChanged m) →
      (diff_events prev cur)[j]? = some (Event.KeyPressed d) → i < j) := by
  have h := code_events_rank_sorted prev cur
  rw [← diff_events_eq] at h
  refine ⟨fun c d hi hj => ?_, fun m c hi hj => ?_, fun m d hi hj => ?_⟩
  · exact rank_sorted_index h hi hj (by simp [Event.rank])
  · exact rank_sorted_index h hi hj (by simp [Event.rank])
  · exact rank_sorted_index h hi hj (by simp [Event.rank])

/-- C8 at the reports `{0x02, [0x04,0,0,0,0,0]}` and `{0x00, [0x05,0,0,0,0,0]}`:
the release of `0x04` is at position 1 and the press of `0x05` at position 2. -/
theorem ordering_invariant_witness :
    (diff_events (mkReport 2 4 0 0 0 0 0) (mkReport 0 5 0 0 0 0 0))[1]? =
        some (Event.KeyReleased 4) ∧
      (diff_events (mkReport 2 4 0 0 0 0 0) (mkReport 0 5 0 0 0 0 0))[2]? =
        some (Event.KeyPressed 5) ∧
      1 < 2 :=
  ⟨by decide, by decide,
    (ordering_invariant (mkReport 2 4 0 0 0 0 0) (mkReport 0 5 0 0 0 0 0) 1 2).1 4 5
      (by decide) (by decide)⟩

/-- The mirror property without any condition on the reports: the presses of
one direction and the releases of the other are found by the same scan. -/
theorem mirror_counts (a b : hid_keyboard_report_t) (c : Nat) :
    (diff_events a b).count (Event.KeyPressed c) = (diff_events b a).count (Event.KeyReleased c) ∧
      (diff_events a b).count (Event.KeyReleased c) =
        (diff_events b a).count (Event.KeyPressed c) := by
  simp only [diff_events_eq, count_KeyPressed, count_KeyReleased, and_self]

/-- C9: for reports `a` and `b` in which no non-zero code occupies more than one
slot, the key events of the two directions are mirrors: `KeyPressed c` occurs in
the events of `(a, b)` as many times as `KeyReleased c` in those of `(b, a)`,
and `KeyReleased c` in those of `(a, b)` as many times as `KeyPressed c` in
those of `(b, a)`. -/
theorem symmetry_mirror (a b : hid_keyboard_report_t) (_ha : no_duplicate_codes a)
    (_hb : no_duplicate_codes b) (c : Nat) :
    (diff_events a b).count (Event.KeyPressed c) = (diff_events b a).count (Event.KeyReleased c) ∧
      (diff_events a b).count (Event.KeyReleased c) =
        (diff_events b a).count (Event.KeyPressed c) :=
  mirror_counts a b c

/-- C9 at the reports with keycodes `[4,5,0,0,0,0]` and `[5,6,0,0,0,0]`: the
press of 6 in one direction is the release of 6 in the other, once each. -/
theorem symmetry_mirror_witness :
    no_duplicate_codes (mkReport 0 4 5 0 0 0 0) ∧ no_duplicate_codes (mkReport 0 5 6 0 0 0 0) ∧
      (diff_events (mkReport 0 4 5 0 0 0 0) (mkReport 0 5 6 0 0 0 0)).count (Event.KeyPressed 6) = 1 ∧
      (diff_events (mkReport 0 5 6 0 0 0 0) (mkReport 0 4 5 0 0 0 0)).count (Event.KeyReleased 6) = 1 := by
  have h := symmetry_mirror (mkReport 0 4 5 0 0 0 0) (mkReport 0 5 6 0 0 0 0) (by decide)
    (by decide) 6
  refine ⟨by decide, by decide, by decide, ?_⟩
  rw [← h.1]
  decide

/-- C10, as stated, fails: with keycodes `[0x04, 0x04, 0, 0, 0, 0]` in `prev`
and no key in `cur`, the event `KeyReleased 0x04` is emitted twice, once for
each slot. -/
theorem duplicate_release_counterexample :
    diff_events (mkReport 0 4 4 0 0 0 0) (mkReport 0 0 0 0 0 0 0) =
        [Event.KeyReleased 4, Event.KeyReleased 4] ∧
      (diff_events (mkReport 0 4 4 0 0 0 0) (mkReport 0 0 0 0 0 0 0)).count (Event.KeyReleased 4) = 2 ∧
      ¬ (diff_events (mkReport 0 4 4 0 0 0 0) (mkReport 0 0 0 0 0 0 0)).Nodup := by
  decide

theorem fresh_codes_nodup_iff (a b : hid_keyboard_report_t) :
    (fresh_codes a b).Nodup ↔ no_repeated_fresh_code a b := by
  unfold fresh_codes
  constructor
  · intro h i j h0 hb hij
    have hi : i ∈ slots.filter (fun i => decide (a.keycode i ≠ 0 ∧
        is_key_held b (a.keycode i) = false)) := by
      rw [List.mem_filter, decide_eq_true_eq, is_key_held_eq_false_iff]
      exact ⟨mem_slots i, h0, hb⟩
    have hj : j ∈ slots.filter (fun i => decide (a.keycode i ≠ 0 ∧
        is_key_held b (a.keycode i) = false)) := by
      rw [List.mem_filter, decide_eq_true_eq, is_key_held_eq_false_iff, ← hij]
      exact ⟨mem_slots j, h0, hb⟩
    exact List.inj_on_of_nodup_map h hi hj hij
  · intro h
    refine List.Nodup.map_on ?_ (slots_nodup.filter _)
    intro i hi j _ hij
    rw [List.mem_filter, decide_eq_true_eq, is_key_held_eq_false_iff] at hi
    exact h i j hi.2.1 hi.2.2 hij

theorem code_events_nodup_iff (prev cur : hid_keyboard_report_t) :
    (code_events prev cur).Nodup ↔ (fresh_codes prev cur).Nodup ∧ (fresh_codes cur prev).Nodup := by
  have injR : Function.Injective Event.KeyReleased := fun _ _ h => by
    injection h
  have injP : Function.Injective Event.KeyPressed := fun _ _ h => by
    injection h
  rw [code_events, List.nodup_append, List.nodup_append, List.nodup_map_iff injR,
    List.nodup_map_iff injP]
  constructor
  · rintro ⟨⟨_, hr, _⟩, hp, _⟩
    exact ⟨hr, hp⟩
  · rintro ⟨hr, hp⟩
    refine ⟨⟨?_, hr, ?_⟩, hp, ?_⟩
    · split <;> simp
    · split <;> simp [List.Disjoint]
    · split <;> simp [List.Disjoint]

/-- The events of one differencing are free of repetition exactly when neither
scan meets a repeated code that the other report lacks. -/
theorem events_nodup_iff (prev cur : hid_keyboard_report_t) :
    (diff_events prev cur).Nodup ↔
      no_repeated_fresh_code prev cur ∧ no_repeated_fresh_code cur prev := by
  rw [diff_events_eq, code_events_nodup_iff, fresh_codes_nodup_iff, fresh_codes_nodup_iff]

/-- C10, amended: when no non-zero code that is in no slot of `cur` occupies
more than one slot of `prev`, and no non-zero code that is in no slot of `prev`
occupies more than one slot of `cur`, no event occurs twice in the events of
`detect_report_changes`: for every code there is at most one `KeyReleased` and
at most one `KeyPressed`.  A code repeated in a report and present in the other
report is allowed. -/
theorem events_nodup_of_no_repeated_fresh_code (prev cur : hid_keyboard_report_t)
    (hp : no_repeated_fresh_code prev cur) (hc : no_repeated_fresh_code cur prev) :
    (diff_events prev cur).Nodup ∧
      ∀ c, (diff_events prev cur).count (Event.KeyReleased c) ≤ 1 ∧
        (diff_events prev cur).count (Event.KeyPressed c) ≤ 1 := by
  have hn : (diff_events prev cur).Nodup := (events_nodup_iff prev cur).2 ⟨hp, hc⟩
  exact ⟨hn, fun c => ⟨List.nodup_iff_count_le_one.1 hn _, List.nodup_iff_count_le_one.1 hn _⟩⟩

/-- C10, amended, at the reports `{0, [4,4,5,0,0,0]}` and `{1, [4,6,0,0,0,0]}`:
the code 4 is repeated in `prev` but still held in `cur`, the condition holds
and the three events (modifier, release of 5, press of 6) are distinct. -/
theorem events_nodup_of_no_repeated_fresh_code_witness :
    no_repeated_fresh_code (mkReport 0 4 4 5 0 0 0) (mkReport 1 4 6 0 0 0 0) ∧
      no_repeated_fresh_code (mkReport 1 4 6 0 0 0 0) (mkReport 0 4 4 5 0 0 0) ∧
      ¬ no_duplicate_codes (mkReport 0 4 4 5 0 0 0) ∧
      diff_events (mkReport 0 4 4 5 0 0 0) (mkReport 1 4 6 0 0 0 0) =
        [Event.ModifierChanged 1, Event.KeyReleased 5, Event.KeyPressed 6] ∧
      (diff_events (mkReport 0 4 4 5 0 0 0) (mkReport 1 4 6 0 0 0 0)).Nodup :=
  ⟨by decide, by decide, by decide, by decide,
    (events_nodup_of_no_repeated_fresh_code (mkReport 0 4 4 5 0 0 0) (mkReport 1 4 6 0 0 0 0)
      (by decide) (by decide)).1⟩

/-! ## Which codes are reported -/

theorem mem_fresh_codes_iff (a b : hid_keyboard_report_t) (c : Nat) :
    c ∈ fresh_codes a b ↔ c ≠ 0 ∧ (∃ i, a.keycode i = c) ∧ ∀ j, b.keycode j ≠ c := by
  refine ⟨mem_fresh_codes, ?_⟩
  rintro ⟨h0, ⟨i, rfl⟩, hb⟩
  unfold fresh_codes
  rw [List.mem_map]
  refine ⟨i, ?_, rfl⟩
  rw [List.mem_filter, decide_eq_true_eq, is_key_held_eq_false_iff]
  exact ⟨mem_slots i, h0, hb⟩

theorem KeyReleased_mem_iff (prev cur : hid_keyboard_report_t) (c : Nat) :
    Event.KeyReleased c ∈ diff_events prev cur ↔ c ∈ fresh_codes prev cur := by
  rw [diff_events_eq, code_events]
  split <;> simp

theorem KeyPressed_mem_iff (prev cur : hid_keyboard_report_t) (c : Nat) :
    Event.KeyPressed c ∈ diff_events prev cur ↔ c ∈ fresh_codes cur prev := by
  rw [diff_events_eq, code_events]
  split <;> simp

theorem ModifierChanged_mem_iff (prev cur : hid_keyboard_report_t) (m : Nat) :
    Event.ModifierChanged m ∈ diff_events prev cur ↔
      prev.modifier ≠ cur.modifier ∧ m = cur.modifier := by
  rw [diff_events_eq, code_events]
  split <;> simp [*]

set_option maxRecDepth 100000 in
theorem key_event_packet_value (k : Nat) (hk : k < 256) (pressed : Bool) :
    key_event_packet pressed k = 0xA006 + 0x1001 * (if pressed then 1 else 0) + 16 * k := by
  have h : ∀ k < 256, ∀ pressed : Bool,
      key_event_packet pressed k = 0xA006 + 0x1001 * (if pressed then 1 else 0) + 16 * k := by
    decide
  exact h k hk pressed

set_option maxRecDepth 100000 in
theorem modifier_event_packet_value (m : Nat) (hm : m < 256) :
    modifier_event_packet m = 0xC004 + 16 * m := by
  have h : ∀ m < 256, modifier_event_packet m = 0xC004 + 16 * m := by
    decide
  exact h m hm

set_option maxRecDepth 100000 in
theorem key_event_packet_code_field (k : Nat) (hk : k < 256) (pressed : Bool) :
    bit_field (key_event_packet pressed k) 11 4 = k := by
  have h : ∀ k < 256, ∀ pressed : Bool, bit_field (key_event_packet pressed k) 11 4 = k := by
    decide
  exact h k hk pressed

/-- C11: a non-zero code that is in some slot of `prev` and in some slot of
`cur` gives neither a `KeyReleased` nor a `KeyPressed`, however many slots it
occupies in each report; with keycodes `[0x04, 0x04, 0, 0, 0, 0]` then
`[0x04, 0, 0, 0, 0, 0]` and equal modifier bytes no event is emitted. -/
theorem duplicate_slot_non_event :
    (∀ (prev cur : hid_keyboard_report_t) (c : Nat), c ≠ 0 →
      (∃ i, prev.keycode i = c) → (∃ j, cur.keycode j = c) →
        Event.KeyReleased c ∉ diff_events prev cur ∧
          Event.KeyPressed c ∉ diff_events prev cur) ∧
    (∀ m : Nat, diff_events (mkReport m 0x04 0x04 0 0 0 0) (mkReport m 0x04 0 0 0 0 0) = [] ∧
      diff_bytes (mkReport m 0x04 0x04 0 0 0 0) (mkReport m 0x04 0 0 0 0 0) = []) := by
  refine ⟨fun prev cur c _ hp hc => ⟨?_, ?_⟩, fun m => ?_⟩
  · rw [KeyReleased_mem_iff, mem_fresh_codes_iff]
    rintro ⟨_, _, h⟩
    obtain ⟨j, hj⟩ := hc
    exact h j hj
  · rw [KeyPressed_mem_iff, mem_fresh_codes_iff]
    rintro ⟨_, _, h⟩
    obtain ⟨i, hi⟩ := hp
    exact h i hi
  · have h1 : fresh_codes (mkReport m 4 4 0 0 0 0) (mkReport m 4 0 0 0 0 0) = [] :=
      (rfl : fresh_codes (mkReport 0 4 4 0 0 0 0) (mkReport 0 4 0 0 0 0 0) = _).symm.trans
        (by decide)
    have h2 : fresh_codes (mkReport m 4 0 0 0 0 0) (mkReport m 4 4 0 0 0 0) = [] :=
      (rfl : fresh_codes (mkReport 0 4 0 0 0 0 0) (mkReport 0 4 4 0 0 0 0) = _).symm.trans
        (by decide)
    have h : code_events (mkReport m 4 4 0 0 0 0) (mkReport m 4 0 0 0 0 0) = [] := by
      rw [code_events, h1, h2]
      simp [mkReport]
    rw [diff_events_eq, diff_bytes_eq, h]
    exact ⟨rfl, rfl⟩

/-- C11 at keycodes `[4, 4, 0, 0, 0, 0]` then `[4, 7, 0, 0, 0, 0]`: the code 4
is in both reports and is not reported, only the press of 7 is. -/
theorem duplicate_slot_non_event_witness :
    (Event.KeyReleased 4 ∉ diff_events (mkReport 0 4 4 0 0 0 0) (mkReport 0 4 7 0 0 0 0) ∧
      Event.KeyPressed 4 ∉ diff_events (mkReport 0 4 4 0 0 0 0) (mkReport 0 4 7 0 0 0 0)) ∧
    diff_events (mkReport 0 4 4 0 0 0 0) (mkReport 0 4 7 0 0 0 0) = [Event.KeyPressed 7] :=
  ⟨duplicate_slot_non_event.1 (mkReport 0 4 4 0 0 0 0) (mkReport 0 4 7 0 0 0 0) 4 (by decide)
    ⟨0, by decide⟩ ⟨0, by decide⟩, by decide⟩

/-- C12: `detect_report_changes` is a total function, it gives its output for
every pair of reports; no `KeyPressed` and no `KeyReleased` it emits carries the
code 0, and for reports made of bytes no key packet it writes has bits 11-4 all
zero. -/
theorem zero_slots_never_reported (prev cur : hid_keyboard_report_t) :
    (∀ s : Stdout, detect_report_changes prev cur s = s.emit (diff_events prev cur)) ∧
      Event.KeyPressed 0 ∉ diff_events prev cur ∧
      Event.KeyReleased 0 ∉ diff_events prev cur ∧
      (prev.is_bytes → cur.is_bytes → ∀ e ∈ diff_events prev cur,
        (e.is_pressed = true ∨ e.is_released = true) → bit_field e.packet 11 4 ≠ 0) := by
  refine ⟨fun s => ?_, ?_, ?_, fun hp hc e he hk => ?_⟩
  · rw [detect_report_changes_emit, diff_events_eq]
  · rw [KeyPressed_mem_iff]
    exact fun h => (mem_fresh_codes h).1 rfl
  · rw [KeyReleased_mem_iff]
    exact fun h => (mem_fresh_codes h).1 rfl
  · cases e with
    | ModifierChanged m => simp [Event.is_pressed, Event.is_released] at hk
    | KeyPressed k =>
      rw [KeyPressed_mem_iff] at he
      obtain ⟨h0, ⟨i, hi⟩, _⟩ := mem_fresh_codes he
      have hlt : k < 256 := hi ▸ hc.2.2 i
      rw [Event.packet, key_event_packet_code_field k hlt]
      exact h0
    | KeyReleased k =>
      rw [KeyReleased_mem_iff] at he
      obtain ⟨h0, ⟨i, hi⟩, _⟩ := mem_fresh_codes he
      have hlt : k < 256 := hi ▸ hp.2.2 i
      rw [Event.packet, key_event_packet_code_field k hlt]
      exact h0

/-- C12 at keycodes `[4, 0, 0, 0, 0, 0]` then `[0, 5, 0, 0, 0, 0]`: the two
events are the release of 4 and the press of 5, none for an empty slot, and the
packet of the press has the code 5 in bits 11-4. -/
theorem zero_slots_never_reported_witness :
    (mkReport 0 4 0 0 0 0 0).is_bytes ∧ (mkReport 0 0 5 0 0 0 0).is_bytes ∧
      diff_events (mkReport 0 4 0 0 0 0 0) (mkReport 0 0 5 0 0 0 0) =
        [Event.KeyReleased 4, Event.KeyPressed 5] ∧
      bit_field (Event.KeyPressed 5).packet 11 4 ≠ 0 :=
  ⟨by decide, by decide, by decide,
    (zero_slots_never_reported (mkReport 0 4 0 0 0 0 0) (mkReport 0 0 5 0 0 0 0)).2.2.2
      (by decide) (by decide) (Event.KeyPressed 5) (by decide) (Or.inl rfl)⟩

/-! ## The retained report -/

theorem send_key_event_on_append (pressed : Bool) (key : Nat) (s : Stdout) :
    send_key_event_on (fun out buf => out ++ buf) pressed key s = send_key_event pressed key s :=
  rfl

theorem send_modifier_event_on_append (m : Nat) (s : Stdout) :
    send_modifier_event_on (fun out buf => out ++ buf) m s = send_modifier_event m s :=
  rfl

theorem released_on_append (prev cur : hid_keyboard_report_t) (l : List (Fin 6)) (s : Stdout) :
    detect_report_changes_on.released (fun out buf => out ++ buf) prev cur l s =
      detect_report_changes.released prev cur l s := by
  induction l generalizing s with
  | nil => rfl
  | cons i rest ih =>
    simp only [detect_report_changes_on.released, detect_report_changes.released, ih,
      send_key_event_on_append]

theorem pressed_on_append (prev cur : hid_keyboard_report_t) (l : List (Fin 6)) (s : Stdout) :
    detect_report_changes_on.pressed (fun out buf => out ++ buf) prev cur l s =
      detect_report_changes.pressed prev cur l s := by
  induction l generalizing s with
  | nil => rfl
  | cons i rest ih =>
    simp only [detect_report_changes_on.pressed, detect_report_changes.pressed, ih,
      send_key_event_on_append]

theorem detect_report_changes_on_append (prev cur : hid_keyboard_report_t) (s : Stdout) :
    detect_report_changes_on (fun out buf => out ++ buf) prev cur s =
      detect_report_changes prev cur s := by
  simp only [detect_report_changes_on, detect_report_changes, released_on_append,
    pressed_on_append, send_modifier_event_on_append]

theorem released_on_events (wr : List Nat → List Nat → List Nat)
    (prev cur : hid_keyboard_report_t) (l : List (Fin 6)) (s : Stdout) :
    (detect_report_changes_on.released wr prev cur l s).events =
      s.events ++ ((l.filter (fun i => decide (prev.keycode i ≠ 0 ∧
        is_key_held cur (prev.keycode i) = false))).map prev.keycode).map Event.KeyReleased := by
  induction l generalizing s with
  | nil => simp [detect_report_changes_on.released]
  | cons i rest ih =>
    by_cases h : prev.keycode i ≠ 0 ∧ is_key_held cur (prev.keycode i) = false
    · rw [detect_report_changes_on.released, if_pos h, ih]
      simp [List.filter_cons, h, send_key_event_on]
    · rw [detect_report_changes_on.released, if_neg h, ih]
      simp [List.filter_cons, h]

theorem pressed_on_events (wr : List Nat → List Nat → List Nat)
    (prev cur : hid_keyboard_report_t) (l : List (Fin 6)) (s : Stdout) :
    (detect_report_changes_on.pressed wr prev cur l s).events =
      s.events ++ ((l.filter (fun i => decide (cur.keycode i ≠ 0 ∧
        is_key_held prev (cur.keycode i) = false))).map cur.keycode).map Event.KeyPressed := by
  induction l generalizing s with
  | nil => simp [detect_report_changes_on.pressed]
  | cons i rest ih =>
    by_cases h : cur.keycode i ≠ 0 ∧ is_key_held prev (cur.keycode i) = false
    · rw [detect_report_changes_on.pressed, if_pos h, ih]
      simp [List.filter_cons, h, send_key_event_on]
    · rw [detect_report_changes_on.pressed, if_neg h, ih]
      simp [List.filter_cons, h]

theorem detect_report_changes_on_events (wr : List Nat → List Nat → List Nat)
    (prev cur : hid_keyboard_report_t) (s : Stdout) :
    (detect_report_changes_on wr prev cur s).events = s.events ++ code_events prev cur := by
  unfold detect_report_changes_on code_events fresh_codes
  simp only [pressed_on_events, released_on_events]
  by_cases h : prev.modifier ≠ cur.modifier
  · rw [if_pos h, if_pos h]
    simp [send_modifier_event_on]
  · rw [if_neg h, if_neg h]
    simp

/-- C13: the retained report starts all zero; after `process_kbd_report (R)`
the retained report is `R`, in every field, whatever the retained report and
the output were, whether or not an event was emitted and whatever `write` did
with the bytes; the events of the call are those of
`detect_report_changes (P, R)` for the report `P` retained before. -/
theorem retained_report_update :
    (KbdState.init.prev_report.modifier = 0 ∧ KbdState.init.prev_report.reserved = 0 ∧
      ∀ i, KbdState.init.prev_report.keycode i = 0) ∧
    ∀ (report : hid_keyboard_report_t) (st : KbdState),
      (process_kbd_report report st).prev_report = report ∧
      (process_kbd_report report st).stdout =
        detect_report_changes st.prev_report report st.stdout ∧
      (process_kbd_report report st).stdout.events =
        st.stdout.events ++ diff_events st.prev_report report ∧
      process_kbd_report_on (fun out buf => out ++ buf) report st =
        process_kbd_report report st ∧
      ∀ wr : List Nat → List Nat → List Nat,
        (process_kbd_report_on wr report st).prev_report = report ∧
        (process_kbd_report_on wr report st).stdout.events =
          st.stdout.events ++ diff_events st.prev_report report := by
  refine ⟨⟨rfl, rfl, fun _ => rfl⟩, fun report st => ⟨rfl, rfl, ?_, ?_, fun wr => ⟨rfl, ?_⟩⟩⟩
  · show (detect_report_changes st.prev_report report st.stdout).events = _
    rw [detect_report_changes_emit, diff_events_eq]
    rfl
  · show KbdState.mk report _ = KbdState.mk report _
    rw [detect_report_changes_on_append]
  · show (detect_report_changes_on wr st.prev_report report st.stdout).events = _
    rw [detect_report_changes_on_events, diff_events_eq]

/-! ## Telling the packets apart -/

theorem key_event_packet_mod (pressed : Bool) (k : Nat) :
    key_event_packet pressed k = key_event_packet pressed (k % 256) := by
  have h : ∀ n : Nat, n &&& 0xFF = n % 256 := fun n => Nat.and_pow_two_sub_one_eq_mod n 8
  simp only [key_event_packet, h, Nat.mod_mod]

theorem modifier_event_packet_mod (m : Nat) :
    modifier_event_packet m = modifier_event_packet (m % 256) := by
  have h : ∀ n : Nat, n &&& 0xFF = n % 256 := fun n => Nat.and_pow_two_sub_one_eq_mod n 8
  simp only [modifier_event_packet, h, Nat.mod_mod]

set_option maxRecDepth 100000 in
theorem key_event_packet_markers (pressed : Bool) (k : Nat) :
    bit_field (key_event_packet pressed k) 15 13 = 0b101 ∧
      bit_field (key_event_packet pressed k) 3 1 = 0b011 := by
  have h : ∀ k < 256, ∀ pressed : Bool,
      bit_field (key_event_packet pressed k) 15 13 = 0b101 ∧
        bit_field (key_event_packet pressed k) 3 1 = 0b011 := by
    decide
  rw [key_event_packet_mod]
  exact h (k % 256) (Nat.mod_lt _ (by decide)) pressed

set_option maxRecDepth 100000 in
theorem modifier_event_packet_markers (m : Nat) :
    bit_field (modifier_event_packet m) 15 13 = 0b110 ∧
      bit_field (modifier_event_packet m) 3 1 = 0b010 := by
  have h : ∀ m < 256,
      bit_field (modifier_event_packet m) 15 13 = 0b110 ∧
        bit_field (modifier_event_packet m) 3 1 = 0b010 := by
    decide
  rw [modifier_event_packet_mod]
  exact h (m % 256) (Nat.mod_lt _ (by decide))

theorem packet_eq_of_bytes_eq {e₁ e₂ : Event} (h : e₁.bytes = e₂.bytes) :
    e₁.packet = e₂.packet := by
  have low : ∀ p : Nat, p &&& 0xFF = p % 256 := fun p => Nat.and_pow_two_sub_one_eq_mod p 8
  have high : ∀ p : Nat, p >>> 8 = p / 256 := fun p => Nat.shiftRight_eq_div_pow p 8
  simp only [Event.bytes, low, high, List.cons.injEq, and_true] at h
  omega

theorem Event.bytes_injective (e₁ e₂ : Event) (h₁ : e₁.is_byte) (h₂ : e₂.is_byte)
    (h : e₁.bytes = e₂.bytes) : e₁ = e₂ := by
  have hp := packet_eq_of_bytes_eq h
  cases e₁ with
  | ModifierChanged a =>
    cases e₂ with
    | ModifierChanged b =>
      rw [Event.packet, Event.packet, modifier_event_packet_value a h₁,
        modifier_event_packet_value b h₂] at hp
      have : a = b := by omega
      rw [this]
    | KeyPressed b =>
      rw [Event.packet, Event.packet, modifier_event_packet_value a h₁,
        key_event_packet_value b h₂] at hp
      simp only [if_true] at hp
      have : b < 256 := h₂
      omega
    | KeyReleased b =>
      rw [Event.packet, Event.packet, modifier_event_packet_value a h₁,
        key_event_packet_value b h₂] at hp
      simp only [Bool.false_eq_true, if_false] at hp
      have : b < 256 := h₂
      omega
  | KeyPressed a =>
    cases e₂ with
    | ModifierChanged b =>
      rw [Event.packet, Event.packet, modifier_event_packet_value b h₂,
        key_event_packet_value a h₁] at hp
      simp only [if_true] at hp
      have : a < 256 := h₁
      omega
    | KeyPressed b =>
      rw [Event.packet, Event.packet, key_event_packet_value a h₁,
        key_event_packet_value b h₂] at hp
      have : a = b := by omega
      rw [this]
    | KeyReleased b =>
      rw [Event.packet, Event.packet, key_event_packet_value a h₁,
        key_event_packet_value b h₂] at hp
      simp only [if_true, Bool.false_eq_true, if_false] at hp
      omega
  | KeyReleased a =>
    cases e₂ with
    | ModifierChanged b =>
      rw [Event.packet, Event.packet, modifier_event_packet_value b h₂,
        key_event_packet_value a h₁] at hp
      simp only [Bool.false_eq_true, if_false] at hp
      have : a < 256 := h₁
      omega
    | KeyPressed b =>
      rw [Event.packet, Event.packet, key_event_packet_value a h₁,
        key_event_packet_value b h₂] at hp
      simp only [if_true, Bool.false_eq_true, if_false] at hp
      omega
    | KeyReleased b =>
      rw [Event.packet, Event.packet, key_event_packet_value a h₁,
        key_event_packet_value b h₂] at hp
      have : a = b := by omega
      rw [this]

/-- C14: the packet of a key event and the packet of a modifier event differ
in bits 15-13 (`101` against `110`) and in bits 3-1 (`011` against `010`); and
two events with 8-bit payloads that give the same two bytes are the same
event. -/
theorem packet_kinds_distinguishable :
    (∀ (pressed : Bool) (k m : Nat),
      bit_field (key_event_packet pressed k) 15 13 = 0b101 ∧
      bit_field (modifier_event_packet m) 15 13 = 0b110 ∧
      bit_field (key_event_packet pressed k) 15 13 ≠ bit_field (modifier_event_packet m) 15 13 ∧
      bit_field (key_event_packet pressed k) 3 1 = 0b011 ∧
      bit_field (modifier_event_packet m) 3 1 = 0b010 ∧
      bit_field (key_event_packet pressed k) 3 1 ≠ bit_field (modifier_event_packet m) 3 1) ∧
    ∀ e₁ e₂ : Event, e₁.is_byte → e₂.is_byte → e₁.bytes = e₂.bytes → e₁ = e₂ := by
  refine ⟨fun pressed k m => ?_, Event.bytes_injective⟩
  obtain ⟨k1, k2⟩ := key_event_packet_markers pressed k
  obtain ⟨m1, m2⟩ := modifier_event_packet_markers m
  refine ⟨k1, m1, ?_, k2, m2, ?_⟩
  · rw [k1, m1]
    decide
  · rw [k2, m2]
    decide

/-- C14 at the press and the release of the code `0x04`: their bytes are
`0xB0, 0x47` and `0xA0, 0x46`, and an event with the bytes of the press is the
press. -/
theorem packet_kinds_distinguishable_witness :
    (Event.KeyPressed 4).bytes = [0xB0, 0x47] ∧ (Event.KeyReleased 4).bytes = [0xA0, 0x46] ∧
      Event.KeyPressed (2 + 2) = Event.KeyPressed 4 :=
  ⟨by decide, by decide,
    packet_kinds_distinguishable.2 (Event.KeyPressed (2 + 2)) (Event.KeyPressed 4)
      (show 2 + 2 < 256 by decide) (show 4 < 256 by decide) (by decide)⟩

/-! ## The receiver follows the reports -/

theorem process_reports_append (a b : List hid_keyboard_report_t) (st : KbdState) :
    process_reports (a ++ b) st = process_reports b (process_reports a st) := by
  induction a generalizing st with
  | nil => rfl
  | cons r rest ih =>
    rw [List.cons_append, process_reports, process_reports, ih]

theorem Receiver.run_append (rx : Receiver) (a b : List Event) :
    rx.run (a ++ b) = (rx.run a).run b := by
  simp [Receiver.run, List.foldl_append]

theorem Receiver.run_released (rx : Receiver) (l : List Nat) :
    rx.run (l.map Event.KeyReleased) = { mask := rx.mask, held := rx.held \ l.toFinset } := by
  induction l generalizing rx with
  | nil => simp [Receiver.run]
  | cons c rest ih =>
    have h : rx.run ((c :: rest).map Event.KeyReleased) =
        (rx.step (Event.KeyReleased c)).run (rest.map Event.KeyReleased) := rfl
    rw [h, ih]
    simp only [Receiver.step, List.toFinset_cons, Receiver.mk.injEq, true_and]
    ext x
    simp only [Finset.mem_sdiff, Finset.mem_erase, Finset.mem_insert, List.mem_toFinset]
    tauto

theorem Receiver.run_pressed (rx : Receiver) (l : List Nat) :
    rx.run (l.map Event.KeyPressed) = { mask := rx.mask, held := rx.held ∪ l.toFinset } := by
  induction l generalizing rx with
  | nil => simp [Receiver.run]
  | cons c rest ih =>
    have h : rx.run ((c :: rest).map Event.KeyPressed) =
        (rx.step (Event.KeyPressed c)).run (rest.map Event.KeyPressed) := rfl
    rw [h, ih]
    simp only [Receiver.step, List.toFinset_cons, Receiver.mk.injEq, true_and]
    ext x
    simp only [Finset.mem_union, Finset.mem_insert, List.mem_toFinset]
    tauto

theorem mem_held_codes (r : hid_keyboard_report_t) (c : Nat) :
    c ∈ held_codes r ↔ c ≠ 0 ∧ ∃ i, r.keycode i = c := by
  simp [held_codes]

theorem held_codes_step (prev cur : hid_keyboard_report_t) :
    (held_codes prev \ (fresh_codes prev cur).toFinset) ∪ (fresh_codes cur prev).toFinset =
      held_codes cur := by
  ext c
  have hC : (∀ j, cur.keycode j ≠ c) ↔ ¬ ∃ j, cur.keycode j = c := by simp
  have hP : (∀ j, prev.keycode j ≠ c) ↔ ¬ ∃ j, prev.keycode j = c := by simp
  simp only [Finset.mem_union, Finset.mem_sdiff, List.mem_toFinset, mem_held_codes,
    mem_fresh_codes_iff, hC, hP]
  tauto

theorem Receiver.run_code_events (prev cur : hid_keyboard_report_t) :
    (Receiver.of_report prev).run (code_events prev cur) = Receiver.of_report cur := by
  have hm : (Receiver.of_report prev).run
      (if prev.modifier ≠ cur.modifier then [Event.ModifierChanged cur.modifier] else []) =
      { mask := cur.modifier, held := held_codes prev } := by
    by_cases h : prev.modifier ≠ cur.modifier
    · rw [if_pos h]
      rfl
    · rw [if_neg h]
      have h' : prev.modifier = cur.modifier := not_not.1 h
      simp [Receiver.run, Receiver.of_report, h']
  rw [code_events, Receiver.run_append, Receiver.run_append, hm, Receiver.run_released,
    Receiver.run_pressed]
  simp only [Receiver.of_report, held_codes_step]

theorem receiver_invariant (rs : List hid_keyboard_report_t) (st : KbdState)
    (h : Receiver.init.run st.stdout.events = Receiver.of_report st.prev_report) :
    Receiver.init.run (process_reports rs st).stdout.events =
      Receiver.of_report (process_reports rs st).prev_report := by
  induction rs generalizing st with
  | nil => exact h
  | cons r rest ih =>
    rw [process_reports]
    apply ih
    show Receiver.init.run (detect_report_changes st.prev_report r st.stdout).events =
      Receiver.of_report r
    rw [detect_report_changes_emit]
    show Receiver.init.run (st.stdout.events ++ code_events st.prev_report r) = _
    rw [Receiver.run_append, h, Receiver.run_code_events]

theorem receiver_invariant_init :
    Receiver.init.run KbdState.init.stdout.events =
      Receiver.of_report KbdState.init.prev_report := by
  have h : held_codes KbdState.init.prev_report = ∅ := by
    ext c
    simp only [mem_held_codes, KbdState.init, Finset.not_mem_empty, iff_false]
    rintro ⟨h0, _, h1⟩
    exact h0 h1.symm
  simp only [Receiver.of_report, h]
  rfl

/-- C15: after the reports `R1 .. Rn` have been processed in order from the
initial state, a receiver that starts with mask 0 and no key held and applies
every emitted event in order has the mask `Rn.modifier` and holds exactly the
non-zero codes of `Rn.keycode`; with no report at all it is still in its initial
state. -/
theorem receiver_reconstruction :
    (∀ (rs : List hid_keyboard_report_t) (rn : hid_keyboard_report_t),
      (Receiver.init.run (process_reports (rs ++ [rn]) KbdState.init).stdout.events).mask =
          rn.modifier ∧
        (Receiver.init.run (process_reports (rs ++ [rn]) KbdState.init).stdout.events).held =
          held_codes rn ∧
        ∀ c, c ∈ (Receiver.init.run
            (process_reports (rs ++ [rn]) KbdState.init).stdout.events).held ↔
          c ≠ 0 ∧ ∃ i, rn.keycode i = c) ∧
    Receiver.init.run (process_reports [] KbdState.init).stdout.events = Receiver.init := by
  refine ⟨fun rs rn => ?_, rfl⟩
  have h := receiver_invariant (rs ++ [rn]) KbdState.init receiver_invariant_init
  have hl : (process_reports (rs ++ [rn]) KbdState.init).prev_report = rn := by
    rw [process_reports_append]
    rfl
  rw [hl] at h
  rw [h]
  exact ⟨rfl, rfl, fun c => mem_held_codes rn c⟩

/-! ## Silence, disjointness and the size of the output -/

theorem fresh_codes_eq_nil_iff (a b : hid_keyboard_report_t) :
    fresh_codes a b = [] ↔ held_codes a ⊆ held_codes b := by
  rw [List.eq_nil_iff_forall_not_mem]
  constructor
  · intro h c hc
    rw [mem_held_codes] at hc ⊢
    refine ⟨hc.1, ?_⟩
    by_contra hb
    exact h c ((mem_fresh_codes_iff a b c).2 ⟨hc.1, hc.2, fun j hj => hb ⟨j, hj⟩⟩)
  · intro h c hc
    obtain ⟨h0, ha, hb⟩ := mem_fresh_codes hc
    obtain ⟨_, j, hj⟩ := (mem_held_codes b c).1 (h ((mem_held_codes a c).2 ⟨h0, ha⟩))
    exact hb j hj

theorem fresh_codes_length_le (a b : hid_keyboard_report_t) : (fresh_codes a b).length ≤ 6 := by
  unfold fresh_codes
  rw [List.length_map]
  exact List.length_filter_le _ _

theorem code_events_length (prev cur : hid_keyboard_report_t) :
    (code_events prev cur).length =
      (if prev.modifier ≠ cur.modifier then 1 else 0) + (fresh_codes prev cur).length +
        (fresh_codes cur prev).length := by
  unfold code_events
  split
  · simp
    omega
  · simp

theorem code_events_countP (prev cur : hid_keyboard_report_t) :
    (code_events prev cur).countP Event.is_modifier =
        (if prev.modifier ≠ cur.modifier then 1 else 0) ∧
      (code_events prev cur).countP Event.is_released = (fresh_codes prev cur).length ∧
      (code_events prev cur).countP Event.is_pressed = (fresh_codes cur prev).length := by
  have h1 : ∀ l : List Nat, (l.map Event.KeyReleased).countP Event.is_modifier = 0 := fun l => by
    rw [List.countP_eq_zero]
    simp [Event.is_modifier]
  have h2 : ∀ l : List Nat, (l.map Event.KeyPressed).countP Event.is_modifier = 0 := fun l => by
    rw [List.countP_eq_zero]
    simp [Event.is_modifier]
  have h3 : ∀ l : List Nat, (l.map Event.KeyPressed).countP Event.is_released = 0 := fun l => by
    rw [List.countP_eq_zero]
    simp [Event.is_released]
  have h4 : ∀ l : List Nat, (l.map Event.KeyReleased).countP Event.is_pressed = 0 := fun l => by
    rw [List.countP_eq_zero]
    simp [Event.is_pressed]
  have h5 : ∀ l : List Nat, (l.map Event.KeyReleased).countP Event.is_released = l.length :=
    fun l => by
      rw [List.countP_eq_length.2 (by simp [Event.is_released]), List.length_map]
  have h6 : ∀ l : List Nat, (l.map Event.KeyPressed).countP Event.is_pressed = l.length :=
    fun l => by
      rw [List.countP_eq_length.2 (by simp [Event.is_pressed]), List.length_map]
  unfold code_events
  simp only [List.countP_append, h1, h2, h3, h4, h5, h6]
  split <;> simp [Event.is_modifier, Event.is_released, Event.is_pressed]

/-- C16: `detect_report_changes (prev, cur)` emits no event exactly when the
modifier bytes are equal and the two reports have the same set of non-zero
codes, whatever the slots and the multiplicities. -/
theorem silence_iff (prev cur : hid_keyboard_report_t) :
    (diff_events prev cur = [] ↔
      prev.modifier = cur.modifier ∧ held_codes prev = held_codes cur) ∧
    (diff_events prev cur = [] ↔
      prev.modifier = cur.modifier ∧
        ∀ c, c ≠ 0 → ((∃ i, prev.keycode i = c) ↔ ∃ j, cur.keycode j = c)) := by
  have key : diff_events prev cur = [] ↔
      prev.modifier = cur.modifier ∧ held_codes prev = held_codes cur := by
    rw [diff_events_eq, code_events, List.append_eq_nil, List.append_eq_nil, List.map_eq_nil_iff,
      List.map_eq_nil_iff, fresh_codes_eq_nil_iff, fresh_codes_eq_nil_iff,
      Finset.Subset.antisymm_iff]
    by_cases h : prev.modifier ≠ cur.modifier
    · rw [if_pos h]
      simp [h]
    · rw [if_neg h]
      have h' : prev.modifier = cur.modifier := not_not.1 h
      simp [h']
  refine ⟨key, ?_⟩
  rw [key, Finset.ext_iff]
  simp only [mem_held_codes]
  constructor
  · rintro ⟨hm, hs⟩
    refine ⟨hm, fun c h0 => ?_⟩
    have := hs c
    constructor
    · exact fun hp => (this.1 ⟨h0, hp⟩).2
    · exact fun hc => (this.2 ⟨h0, hc⟩).2
  · rintro ⟨hm, hs⟩
    refine ⟨hm, fun c => ?_⟩
    constructor
    · exact fun hp => ⟨hp.1, (hs c hp.1).1 hp.2⟩
    · exact fun hc => ⟨hc.1, (hs c hc.1).2 hc.2⟩

/-- C17: the events of `detect_report_changes (prev, cur)` never hold both
`KeyReleased c` and `KeyPressed c`; a released code is in a slot of `prev` and in
none of `cur`, a pressed code is in a slot of `cur` and in none of `prev`. -/
theorem released_pressed_disjoint (prev cur : hid_keyboard_report_t) (c : Nat) :
    ¬ (Event.KeyReleased c ∈ diff_events prev cur ∧ Event.KeyPressed c ∈ diff_events prev cur) ∧
      (Event.KeyReleased c ∈ diff_events prev cur →
        (∃ i, prev.keycode i = c) ∧ ∀ j, cur.keycode j ≠ c) ∧
      (Event.KeyPressed c ∈ diff_events prev cur →
        (∃ i, cur.keycode i = c) ∧ ∀ j, prev.keycode j ≠ c) := by
  rw [KeyReleased_mem_iff, KeyPressed_mem_iff]
  refine ⟨?_, fun h => (mem_fresh_codes h).2, fun h => (mem_fresh_codes h).2⟩
  rintro ⟨hr, hp⟩
  obtain ⟨_, ⟨i, hi⟩, _⟩ := mem_fresh_codes hr
  obtain ⟨_, _, hn⟩ := mem_fresh_codes hp
  exact hn i hi

/-- C17 at keycodes `[4, 5, 0, 0, 0, 0]` then `[5, 6, 0, 0, 0, 0]`: the release
of 4 is emitted, and 4 is in the first slot of `prev` and in no slot of `cur`. -/
theorem released_pressed_disjoint_witness :
    Event.KeyReleased 4 ∈ diff_events (mkReport 0 4 5 0 0 0 0) (mkReport 0 5 6 0 0 0 0) ∧
      ((∃ i, (mkReport 0 4 5 0 0 0 0).keycode i = 4) ∧
        ∀ j, (mkReport 0 5 6 0 0 0 0).keycode j ≠ 4) :=
  ⟨by decide,
    (released_pressed_disjoint (mkReport 0 4 5 0 0 0 0) (mkReport 0 5 6 0 0 0 0) 4).2.1
      (by decide)⟩

/-- C18: `detect_report_changes` emits at most 13 events, at most one
`ModifierChanged`, at most 6 `KeyReleased` and at most 6 `KeyPressed`, and writes
at most 26 bytes; when the modifier bytes differ, `prev` holds six non-zero
codes none of which is in `cur` and `cur` holds six non-zero codes none of which
is in `prev`, there are exactly 13 events and 26 bytes, as for the modifier
bytes 0 and 1 with the codes 1 to 6 and 7 to 12. -/
theorem output_bound :
    (∀ prev cur : hid_keyboard_report_t,
      (diff_events prev cur).length ≤ 13 ∧
      (diff_events prev cur).countP Event.is_modifier ≤ 1 ∧
      (diff_events prev cur).countP Event.is_released ≤ 6 ∧
      (diff_events prev cur).countP Event.is_pressed ≤ 6 ∧
      (diff_bytes prev cur).length ≤ 26) ∧
    (∀ prev cur : hid_keyboard_report_t, prev.modifier ≠ cur.modifier →
      (∀ i, prev.keycode i ≠ 0 ∧ ∀ j, cur.keycode j ≠ prev.keycode i) →
      (∀ i, cur.keycode i ≠ 0) →
        (diff_events prev cur).length = 13 ∧ (diff_bytes prev cur).length = 26) ∧
    ((diff_events (mkReport 0 1 2 3 4 5 6) (mkReport 1 7 8 9 10 11 12)).length = 13 ∧
      (diff_bytes (mkReport 0 1 2 3 4 5 6) (mkReport 1 7 8 9 10 11 12)).length = 26) := by
  refine ⟨fun prev cur => ?_, fun prev cur hm hp hc => ?_, by decide⟩
  · have h1 := fresh_codes_length_le prev cur
    have h2 := fresh_codes_length_le cur prev
    have hl := code_events_length prev cur
    obtain ⟨c1, c2, c3⟩ := code_events_countP prev cur
    rw [diff_bytes_eq, encode_events_length, diff_events_eq, c1, c2, c3, hl]
    split <;> omega
  · have full : ∀ a b : hid_keyboard_report_t,
        (∀ i, a.keycode i ≠ 0 ∧ ∀ j, b.keycode j ≠ a.keycode i) →
          (fresh_codes a b).length = 6 := by
      intro a b h
      unfold fresh_codes
      rw [List.length_map, List.filter_eq_self.2]
      · rfl
      · intro i _
        rw [decide_eq_true_eq, is_key_held_eq_false_iff]
        exact h i
    have h1 := full prev cur hp
    have h2 := full cur prev (fun i => ⟨hc i, fun j h => (hp j).2 i h.symm⟩)
    rw [diff_bytes_eq, encode_events_length, diff_events_eq, code_events_length, h1, h2,
      if_pos hm]
    exact ⟨rfl, rfl⟩

/-- C18 at the reports `{0, [1,2,3,4,5,6]}` and `{1, [7,8,9,10,11,12]}`: the
modifier bytes differ, all twelve codes are non-zero and distinct, and the
differ emits 13 events. -/
theorem output_bound_witness :
    (mkReport 0 1 2 3 4 5 6).modifier ≠ (mkReport 1 7 8 9 10 11 12).modifier ∧
      (diff_events (mkReport 0 1 2 3 4 5 6) (mkReport 1 7 8 9 10 11 12)).length = 13 ∧
      (diff_bytes (mkReport 0 1 2 3 4 5 6) (mkReport 1 7 8 9 10 11 12)).length = 26 :=
  ⟨by decide,
    output_bound.2.1 (mkReport 0 1 2 3 4 5 6) (mkReport 1 7 8 9 10 11 12) (by decide)
      (by decide) (by decide)⟩

end HidApp
